import Mathlib

/-!
Verification of `do-ansible-inventory` (src/main.go) against its
natural-language specification.

The Go program is embedded shallowly:
* a `godo.Droplet` becomes the `Droplet` structure below (only the fields the
  program reads);
* Go maps carrying `map[string][]string` groupings become association lists
  (`List (String × List String)`) with deterministic insertion order — the
  program renders region groups through the fixed `doRegions` slice, so map
  iteration order is irrelevant there, and tag/project group order is
  unspecified by the format;
* the paginated lister's `interface{}` payload becomes the `GodoResults` sum
  type, mirroring the runtime type assertion in the handlers;
* fallible steps return `Option`/`Except`; a Go panic is modelled as `none`.
-/

set_option autoImplicit false
set_option maxRecDepth 8192

namespace DoAnsibleInventory

/-- One entry of `godo.Droplet.Networks.V4`: an IP address and its type
(`"public"` or `"private"`). -/
structure NetworkV4 where
  ipAddress : String
  netType : String
  deriving Repr, DecidableEq

/-- The fields of `godo.Droplet` that src/main.go reads: `ID`, `Name`,
`Region.Slug`, `Tags`, `Networks.V4`. -/
structure Droplet where
  id : Int
  name : String
  regionSlug : String
  tags : List String
  networksV4 : List NetworkV4
  deriving Repr, DecidableEq

/-- Modelled from the godo SDK (a dependency, not part of this repository):
`Droplet.PublicIPv4` scans `Networks.V4` and returns the first address whose
type is `"public"`, or the empty string when there is none; its error return is
non-nil only for a nil receiver, which cannot occur for the slice elements the
program iterates. -/
def Droplet.publicIPv4 (d : Droplet) : String :=
  match d.networksV4.find? (fun n => n.netType == "public") with
  | some n => n.ipAddress
  | none => ""

/-- Modelled from the godo SDK (a dependency, not part of this repository):
`Droplet.PrivateIPv4`, as `Droplet.publicIPv4` but for type `"private"`. -/
def Droplet.privateIPv4 (d : Droplet) : String :=
  match d.networksV4.find? (fun n => n.netType == "private") with
  | some n => n.ipAddress
  | none => ""

/-- The address choice made at src/main.go:120-124: with `--private-ips` the
private address, otherwise the public one; the empty string stands for an
absent address, exactly as in the SDK functions. -/
def resolveIP (preferPrivate : Bool) (d : Droplet) : String :=
  if preferPrivate then d.privateIPv4 else d.publicIPv4

/-- `resolveIP` with the program's "empty string means absent" convention made
explicit as an `Option`: src/main.go:138-142 tests `ip != ""` before writing a
host override. -/
def resolveIPOpt (preferPrivate : Bool) (d : Droplet) : Option String :=
  if resolveIP preferPrivate d = "" then none else some (resolveIP preferPrivate d)

/-- The address-resolution rule in the words of the spec (§4.3
`resolveAddress`): the private IP if `preferPrivate` is set and the private IP
is present, else the public IP if present, else absent. Written from the spec,
to be compared against `resolveIPOpt`. -/
def resolveAddressSpec (preferPrivate : Bool) (d : Droplet) : Option String :=
  if preferPrivate ∧ d.privateIPv4 ≠ "" then some d.privateIPv4
  else if d.publicIPv4 ≠ "" then some d.publicIPv4
  else none

/-- The per-character substitution of `sanitizeAnsibleGroup`
(src/main.go:290-294): space, hyphen and colon become underscore. -/
def replChar (c : Char) : Char :=
  if c == ' ' || c == '-' || c == ':' then '_' else c

/-- The character substitution of `sanitizeAnsibleGroup` (src/main.go:290-294):
`strings.NewReplacer(" ", "_", "-", "_", ":", "_")` over the string. The three
patterns are single ASCII bytes, so the byte-level replacer acts exactly as
this character map. -/
def replaceInvalid (s : String) : String :=
  ⟨s.data.map replChar⟩

/-- `sanitizeAnsibleGroup` (src/main.go:288-302). After the replacement the Go
code reads `s[0]` unconditionally; on the empty string that index is out of
range and the program panics, modelled as `none`. The digit test `'0' <= s[0]
&& s[0] <= '9'` is on the first byte; a multi-byte first character has a first
byte above `'9'`, so testing the first character is equivalent. -/
def sanitizeAnsibleGroup (s : String) : Option String :=
  let t := replaceInvalid s
  match t.data with
  | [] => none
  | c :: _ => some (if '0' ≤ c ∧ c ≤ '9' then "_" ++ t else t)

/-- `removeIgnored` (src/main.go:304-327): with a non-empty ignore list, walk
the droplets appending those whose name is not in the ignore set; the Go map
`ignoreList` built from the slice is membership in that slice. -/
def removeIgnored (droplets : List Droplet) (ignored : List String) : List Droplet :=
  if ignored.isEmpty then droplets
  else droplets.foldl (fun acc d => if ignored.contains d.name then acc else acc ++ [d]) []

/-- A `godo.ProjectResource`: the program only reads its `URN`. -/
structure ProjectResource where
  urn : String
  deriving Repr, DecidableEq

/-- A `godo.Project`: the program only reads `ID` and `Name`. -/
structure Project where
  id : String
  name : String
  deriving Repr, DecidableEq

/-- The pagination metadata of a `godo.Response` that `paginateGodo` consults:
`Links.IsLastPage()` and `Links.CurrentPage()` (the latter can fail when the
link URL does not parse). `Links == nil` is `links = none`. -/
structure PageLinks where
  isLastPage : Bool
  currentPage : Except String Nat
  deriving Repr

/-- The slice of `godo.Response` used by `paginateGodo`. -/
structure PageResp where
  links : Option PageLinks
  deriving Repr

/-- The `interface{}` payload handed from a page-listing call to the handler in
`listDroplets`/`listProjectResources`; the handlers recover the concrete type
with a runtime type assertion, here a `match` on this sum. -/
inductive GodoResults where
  | droplets (l : List Droplet)
  | projectResources (l : List ProjectResource)
  deriving Repr

/-- `paginateGodo` (src/main.go:381-410). The `call` closure is indexed by
`opt.Page` (0 in the initial blank `ListOptions`); the `handler` closure
mutates captured state, so it is modelled as `state → state × Option error`.
The Go `for` loop has no bound, so the embedding takes fuel; `none` means the
fuel ran out before the loop returned, and `some (s, e?)` is the loop's return
(`e? = none` is Go's `return nil`) together with the handler state at that
point. Note src/main.go:390-393: a non-nil handler error makes the routine
`return nil`. -/
def paginateGodo {α σ : Type} (call : Nat → Except String (α × PageResp))
    (handler : α → σ → σ × Option String) : Nat → Nat → σ → Option (σ × Option String)
  | 0, _, _ => none
  | fuel + 1, page, s =>
    match call page with
    | .error e => some (s, some e)
    | .ok (results, resp) =>
      let hs := handler results s
      match hs.2 with
      | some _ => some (hs.1, none)
      | none =>
        match resp.links with
        | none => some (hs.1, none)
        | some links =>
          if links.isLastPage then some (hs.1, none)
          else
            match links.currentPage with
            | .error e => some (hs.1, some e)
            | .ok p => paginateGodo call handler fuel (p + 1) hs.1

/-- The handler closure of `listDroplets` (src/main.go:340-347): type-assert
the payload to `[]godo.Droplet` and append it to the accumulated slice; a
failed assertion returns the error `"listing Droplets"` without touching the
slice. -/
def dropletsHandler (r : GodoResults) (s : List Droplet) : List Droplet × Option String :=
  match r with
  | .droplets dd => (s ++ dd, none)
  | _ => (s, some "listing Droplets")

/-- `listDroplets` (src/main.go:330-355). The choice between `Droplets.List`
and `Droplets.ListByTag` lives inside the API closure `call`, which the
embedding takes as a parameter; on a pagination error the function returns
`nil, err`, discarding the droplets accumulated so far. -/
def listDroplets (call : Nat → Except String (GodoResults × PageResp)) (fuel : Nat) :
    Option (Except String (List Droplet)) :=
  match paginateGodo call dropletsHandler fuel 0 [] with
  | none => none
  | some (_, some e) => some (.error e)
  | some (ds, none) => some (.ok ds)

/-- The handler closure of `listProjectResources` (src/main.go:364-371). -/
def resourcesHandler (r : GodoResults) (s : List ProjectResource) :
    List ProjectResource × Option String :=
  match r with
  | .projectResources rr => (s ++ rr, none)
  | _ => (s, some "listing project resources")

/-- `listProjectResources` (src/main.go:358-379), shaped like `listDroplets`. -/
def listProjectResources (call : Nat → Except String (GodoResults × PageResp)) (fuel : Nat) :
    Option (Except String (List ProjectResource)) :=
  match paginateGodo call resourcesHandler fuel 0 [] with
  | none => none
  | some (_, some e) => some (.error e)
  | some (rs, none) => some (.ok rs)

/-- The canonical region list `doRegions` (src/main.go:47). -/
def doRegions : List String :=
  ["ams1", "ams2", "ams3", "blr1", "fra1", "lon1", "nyc1", "nyc2", "nyc3",
   "sfo1", "sfo2", "sfo3", "sgp1", "tor1"]

/-- The command-line flags that shape the inventory (src/main.go:33-45), with
the program's defaults; `sshPort = 0` and `sshUser = ""` mean "unset", exactly
as the zero values do in Go. -/
structure Config where
  sshUser : String
  sshPort : Int
  ignore : List String
  groupByRegion : Bool
  groupByTag : Bool
  groupByProject : Bool
  privateIPs : Bool
  deriving Repr

/-- The flag defaults (src/main.go:34-44). -/
def defaultConfig : Config :=
  ⟨"", 0, [], true, true, true, false⟩

/-- Go's `m[k]` read on a `map[string][]string`, where a missing key reads the
nil slice: look the key up in the association list, defaulting to `[]`. -/
def mapGet (m : List (String × List String)) (k : String) : List String :=
  match m.find? (fun p => p.1 == k) with
  | some p => p.2
  | none => []

/-- Go's `m[k] = append(m[k], v)` on a `map[string][]string`: extend the entry
for `k`, creating it (in insertion order) when absent. -/
def mapAppend (m : List (String × List String)) (k : String) (v : String) :
    List (String × List String) :=
  if m.any (fun p => p.1 == k) then
    m.map (fun p => if p.1 == k then (p.1, p.2 ++ [v]) else p)
  else m ++ [(k, [v])]

/-- Go's `m[k] = v` on the `map[int]string` of droplet IDs. -/
def idMapSet (m : List (Int × String)) (k : Int) (v : String) : List (Int × String) :=
  if m.any (fun p => p.1 == k) then
    m.map (fun p => if p.1 == k then (p.1, v) else p)
  else m ++ [(k, v)]

/-- Go's `droplet, exists := m[idInt]` on the droplet-ID map. -/
def idMapGet (m : List (Int × String)) (k : Int) : Option String :=
  (m.find? (fun p => p.1 == k)).map (fun p => p.2)

/-- One machine's connection line (src/main.go:130-143) for an already-resolved
address `ip`: name, tab, then `ansible_user`/`ansible_port` when the flags are
set, then `ansible_host` when the address is non-empty (otherwise the line
carries no host override and the program logs a warning), then newline. -/
def connectionLine (cfg : Config) (name ip : String) : String :=
  name ++ "\t"
    ++ (if cfg.sshUser ≠ "" then "ansible_user=" ++ cfg.sshUser ++ " " else "")
    ++ (if cfg.sshPort ≠ 0 then "ansible_port=" ++ toString cfg.sshPort ++ " " else "")
    ++ (if ip ≠ "" then "ansible_host=" ++ ip else "")
    ++ "\n"

/-- The mutable state of the per-droplet loop in `main` (src/main.go:83-97):
the droplet-ID map, the two grouping maps, and the inventory buffer's
connection-lines section. -/
structure LoopState where
  byID : List (Int × String)
  byRegion : List (String × List String)
  byTag : List (String × List String)
  inv : String
  deriving Repr

/-- The state before the loop (src/main.go:83-97): the region map pre-seeded
with every canonical region bound to an empty slice when region grouping is
on (src/main.go:84-89), the others empty. -/
def initState (cfg : Config) : LoopState :=
  ⟨[], if cfg.groupByRegion then doRegions.map (fun r => (r, [])) else [], [], ""⟩

/-- One iteration of the per-droplet loop (src/main.go:99-144), parameterised
by the SDK address lookup `lookup` (in the program,
`godoLookup`): record the ID-to-name entry, append the name under the region
and under each tag, then resolve the address — an error skips the connection
line (`continue` at src/main.go:127) after the grouping insertions already
happened, while success appends the connection line. -/
def processDroplet (lookup : Bool → Droplet → Except String String) (cfg : Config)
    (st : LoopState) (d : Droplet) : LoopState :=
  let st1 : LoopState := { st with byID := idMapSet st.byID d.id d.name }
  let st2 : LoopState :=
    if cfg.groupByRegion then
      { st1 with byRegion := mapAppend st1.byRegion d.regionSlug d.name }
    else st1
  let st3 : LoopState :=
    if cfg.groupByTag then
      { st2 with byTag := d.tags.foldl (fun m t => mapAppend m t d.name) st2.byTag }
    else st2
  match lookup cfg.privateIPs d with
  | .error _ => st3
  | .ok ip => { st3 with inv := st3.inv ++ connectionLine cfg d.name ip }

/-- The address lookup `main` actually performs (src/main.go:120-124) through
the godo SDK: for the value droplets of the fetched slice the SDK's error
return is always nil, so the lookup always succeeds (possibly with an empty,
i.e. absent, address). -/
def godoLookup (preferPrivate : Bool) (d : Droplet) : Except String String :=
  .ok (resolveIP preferPrivate d)

/-- The whole per-droplet loop (src/main.go:99-144). -/
def runLoop (lookup : Bool → Droplet → Except String String) (cfg : Config)
    (droplets : List Droplet) : LoopState :=
  droplets.foldl (processDroplet lookup cfg) (initState cfg)

/-- The members of one group as rendered (src/main.go:157-161): each name on
its own line, then the blank separator line. -/
def renderMembers (members : List String) : String :=
  members.foldl (fun acc m => acc ++ m ++ "\n") "" ++ "\n"

/-- The region-group section (src/main.go:148-163): iterate the fixed
`doRegions` slice — not the map's keys — writing `[slug]`, the members, and a
blank line for each canonical region. -/
def renderRegions (cfg : Config) (byRegion : List (String × List String)) : String :=
  if cfg.groupByRegion then
    doRegions.foldl
      (fun acc r => acc ++ "[" ++ r ++ "]\n" ++ renderMembers (mapGet byRegion r)) ""
  else ""

/-- The tag and project group sections (src/main.go:166-180 and 222-234):
iterate the grouping map, sanitizing each group name; a sanitizer panic (empty
group name) aborts the program, hence the `Option`. -/
def renderGroups (groups : List (String × List String)) : Option String :=
  groups.foldl
    (fun acc p => do
      let a ← acc
      let t ← sanitizeAnsibleGroup p.1
      pure (a ++ "[" ++ t ++ "]\n" ++ renderMembers p.2))
    (some "")

/-- Go's `strconv.Atoi` on the digits of a droplet URN: an optional sign
followed by at least one decimal digit (overflow, which `Atoi` also rejects,
is ignored — URN IDs are far below it). -/
def atoi (s : String) : Option Int :=
  let signed : Int × String :=
    if s.startsWith "-" then (-1, s.drop 1)
    else if s.startsWith "+" then (1, s.drop 1) else (1, s)
  if signed.2 ≠ "" ∧ signed.2.data.all Char.isDigit then
    some (signed.1 * (signed.2.data.foldl (fun n c => n * 10 + (c.toNat - '0'.toNat)) 0 : Nat))
  else none

/-- The project-grouping pass (src/main.go:190-220), with the project list and
each project's (already fetched) resources supplied as data: keep resources
whose URN has the droplet form `do:droplet:<id>`, parse the ID (an unparsable
ID is logged and skipped), drop IDs that are not in the droplet map (ignored
droplets or other resources), and append the mapped name under the project's
name. -/
def buildByProject (byID : List (Int × String))
    (projects : List (Project × List ProjectResource)) : List (String × List String) :=
  projects.foldl
    (fun m pr =>
      pr.2.foldl
        (fun m r =>
          if r.urn.startsWith "do:droplet:" then
            match atoi (r.urn.drop 11) with
            | none => m
            | some idInt =>
              match idMapGet byID idInt with
              | none => m
              | some dname => mapAppend m pr.1.name dname
          else m)
        m)
    []

/-- The inventory `main` assembles (src/main.go:96-235), from the droplet list
as fetched and, when project grouping is on, the project/resource data the API
returned: filter ignored droplets, run the per-droplet loop, close the
connection section with a blank line, then the region, tag and project
sections. `none` is a sanitizer panic. -/
def buildInventory (lookup : Bool → Droplet → Except String String) (cfg : Config)
    (fetched : List Droplet) (projects : List (Project × List ProjectResource)) :
    Option String :=
  let droplets := removeIgnored fetched cfg.ignore
  let st := runLoop lookup cfg droplets
  let head := st.inv ++ "\n" ++ renderRegions cfg st.byRegion
  do
    let tagStr ← if cfg.groupByTag then renderGroups st.byTag else pure ""
    let projStr ←
      if cfg.groupByProject then renderGroups (buildByProject st.byID projects) else pure ""
    pure (head ++ tagStr ++ projStr)

/-- The pipeline with the concrete SDK lookup, as `main` runs it. -/
def mainInventory (cfg : Config) (fetched : List Droplet)
    (projects : List (Project × List ProjectResource)) : Option String :=
  buildInventory godoLookup cfg fetched projects

/-- What one droplet contributes to the connection-lines section: nothing when
the address lookup errors (the `continue` at src/main.go:127), its connection
line otherwise. -/
def connContrib (lookup : Bool → Droplet → Except String String) (cfg : Config)
    (d : Droplet) : String :=
  match lookup cfg.privateIPs d with
  | .error _ => ""
  | .ok ip => connectionLine cfg d.name ip

/-- The connection-lines section produced by a droplet list: the concatenation
of the per-droplet contributions, in fetch order. -/
def connSection (lookup : Bool → Droplet → Except String String) (cfg : Config) :
    List Droplet → String
  | [] => ""
  | d :: l => connContrib lookup cfg d ++ connSection lookup cfg l

/-- The single machine of the spec's §8 rendering scenario. -/
def web1Droplet : Droplet :=
  ⟨1, "web1", "nyc1", ["prod"], [⟨"1.2.3.4", "public"⟩]⟩

/-- A machine whose region slug `xyz9` is not in the canonical region list. -/
def strayRegionDroplet : Droplet :=
  ⟨2, "webx", "xyz9", [], [⟨"5.6.7.8", "public"⟩]⟩

/-- A machine with a public address but no private one. -/
def publicOnlyDroplet : Droplet :=
  ⟨3, "web1", "nyc1", [], [⟨"1.2.3.4", "public"⟩]⟩

/-! ## Helper lemmas -/

theorem strData_append (a b : String) : (a ++ b).data = a.data ++ b.data := rfl

theorem strMk_data (s : String) : (⟨s.data⟩ : String) = s := rfl

theorem str_ne_empty_iff_data {s : String} : s ≠ "" ↔ s.data ≠ [] := by
  cases s with
  | mk l =>
    constructor
    · intro h hl
      exact h (congrArg String.mk hl)
    · intro h hs
      exact h (congrArg String.data hs)

theorem replChar_idem (c : Char) : replChar (replChar c) = replChar c := by
  unfold replChar
  by_cases h : (c == ' ' || c == '-' || c == ':') = true
  · simp [h]
  · simp [h]

theorem replaceInvalid_data (s : String) :
    (replaceInvalid s).data = s.data.map replChar := rfl

theorem replaceInvalid_idem (s : String) :
    replaceInvalid (replaceInvalid s) = replaceInvalid s := by
  have h : List.map replChar (List.map replChar s.data) = List.map replChar s.data := by
    rw [List.map_map]
    exact List.map_congr_left (fun c _ => replChar_idem c)
  exact congrArg String.mk h

theorem foldl_push_filter (p : Droplet → Bool) (l : List Droplet) :
    ∀ acc : List Droplet,
      l.foldl (fun acc d => if p d then acc else acc ++ [d]) acc
        = acc ++ l.filter (fun d => !(p d)) := by
  induction l with
  | nil => intro acc; simp
  | cons d l ih =>
    intro acc
    by_cases h : p d = true
    · simp [List.foldl_cons, h, ih]
    · simp only [Bool.not_eq_true] at h
      simp [List.foldl_cons, h, ih]

theorem removeIgnored_eq_filter (L : List Droplet) (I : List String) :
    removeIgnored L I = L.filter (fun d => !(I.contains d.name)) := by
  unfold removeIgnored
  by_cases h : I.isEmpty
  · have hI : I = [] := List.isEmpty_iff.mp h
    subst hI
    simp
  · simp only [h, if_neg]
    exact foldl_push_filter (fun d => I.contains d.name) L []

theorem mapGet_cons (p : String × List String) (m : List (String × List String))
    (k : String) : mapGet (p :: m) k = if p.1 = k then p.2 else mapGet m k := by
  by_cases h : p.1 = k
  · simp [mapGet, List.find?_cons_of_pos, h]
  · have hb : (p.1 == k) = false := by simp [h]
    simp [mapGet, List.find?_cons_of_neg, hb, h]

theorem mapGet_map_update_ne (m : List (String × List String)) (k : String)
    (v : String) (r : String) (h : r ≠ k) :
    mapGet (m.map (fun p => if p.1 == k then (p.1, p.2 ++ [v]) else p)) r = mapGet m r := by
  induction m with
  | nil => rfl
  | cons q rest ih =>
    simp only [List.map_cons]
    by_cases hq : q.1 = k
    · have hqr : q.1 ≠ r := fun hh => h (hh.symm.trans hq)
      rw [show (if q.1 == k then (q.1, q.2 ++ [v]) else q) = (q.1, q.2 ++ [v]) from by
        simp [hq]]
      rw [mapGet_cons, mapGet_cons, if_neg hqr, if_neg hqr]
      exact ih
    · rw [show (if q.1 == k then (q.1, q.2 ++ [v]) else q) = q from by simp [hq]]
      rw [mapGet_cons, mapGet_cons]
      by_cases h3 : q.1 = r
      · rw [if_pos h3, if_pos h3]
      · rw [if_neg h3, if_neg h3]
        exact ih

theorem mapGet_mapAppend (m : List (String × List String)) (k v r : String) :
    mapGet (mapAppend m k v) r = if r = k then mapGet m k ++ [v] else mapGet m r := by
  induction m with
  | nil =>
    have hm : mapAppend [] k v = [(k, [v])] := by simp [mapAppend]
    rw [hm, mapGet_cons]
    by_cases h : r = k
    · rw [if_pos h.symm, if_pos h]
      rfl
    · rw [if_neg (fun hh => h hh.symm), if_neg h]
  | cons p rest ih =>
    by_cases h1 : p.1 = k
    · have hany : ((p :: rest).any (fun q => q.1 == k)) = true := by simp [h1]
      have hm : mapAppend (p :: rest) k v
          = (p.1, p.2 ++ [v])
            :: rest.map (fun q => if q.1 == k then (q.1, q.2 ++ [v]) else q) := by
        simp only [mapAppend, hany, if_true, List.map_cons]
        rw [show (if p.1 == k then (p.1, p.2 ++ [v]) else p) = (p.1, p.2 ++ [v]) from by
          simp [h1]]
      rw [hm, mapGet_cons]
      by_cases h2 : r = k
      · have hpr : p.1 = r := h1.trans h2.symm
        rw [if_pos hpr, if_pos h2, mapGet_cons, if_pos h1]
      · have hpr : p.1 ≠ r := fun hh => h2 (hh.symm.trans h1)
        rw [if_neg hpr, if_neg h2, mapGet_cons, if_neg hpr]
        exact mapGet_map_update_ne rest k v r h2
    · have hgp : (if p.1 == k then (p.1, p.2 ++ [v]) else p) = p := by simp [h1]
      by_cases h2 : rest.any (fun q => q.1 == k) = true
      · have hany : ((p :: rest).any (fun q => q.1 == k)) = true := by
          simp [List.any_cons, h2]
        have hrest : mapAppend rest k v
            = rest.map (fun q => if q.1 == k then (q.1, q.2 ++ [v]) else q) := by
          simp [mapAppend, h2]
        have hm : mapAppend (p :: rest) k v
            = p :: rest.map (fun q => if q.1 == k then (q.1, q.2 ++ [v]) else q) := by
          simp only [mapAppend, hany, if_true, List.map_cons, hgp]
        rw [hm, mapGet_cons, ← hrest, ih]
        by_cases h3 : p.1 = r
        · have hrk : r ≠ k := fun hh => h1 (h3.trans hh)
          rw [if_pos h3, if_neg hrk, mapGet_cons, if_pos h3]
        · rw [if_neg h3]
          by_cases h4 : r = k
          · rw [if_pos h4, if_pos h4, mapGet_cons, if_neg h1]
          · rw [if_neg h4, if_neg h4, mapGet_cons, if_neg h3]
      · have h2f : (rest.any fun q => q.1 == k) = false := by
          cases hb : (rest.any fun q => q.1 == k) with
          | false => rfl
          | true => exact absurd hb h2
        have hanyb : ((p :: rest).any (fun q => q.1 == k)) = false := by
          simp only [List.any_cons, Bool.or_eq_false_iff]
          constructor
          · simp [h1]
          · exact h2f
        have hrest : mapAppend rest k v = rest ++ [(k, [v])] := by
          simp only [mapAppend]
          rw [if_neg h2]
        have hm : mapAppend (p :: rest) k v = p :: (rest ++ [(k, [v])]) := by
          simp only [mapAppend, hanyb, Bool.false_eq_true, if_false, List.cons_append]
        rw [hm, mapGet_cons, ← hrest, ih]
        by_cases h3 : p.1 = r
        · have hrk : r ≠ k := fun hh => h1 (h3.trans hh)
          rw [if_pos h3, if_neg hrk, mapGet_cons, if_pos h3]
        · rw [if_neg h3]
          by_cases h4 : r = k
          · rw [if_pos h4, if_pos h4, mapGet_cons, if_neg h1]
          · rw [if_neg h4, if_neg h4, mapGet_cons, if_neg h3]

theorem mem_mapGet_mapAppend {x : String} {m : List (String × List String)}
    {r : String} (k v : String) (hx : x ∈ mapGet m r) :
    x ∈ mapGet (mapAppend m k v) r := by
  rw [mapGet_mapAppend]
  by_cases h : r = k
  · rw [if_pos h]
    exact List.mem_append_left _ (h ▸ hx)
  · rwa [if_neg h]

theorem idMapGet_cons (p : Int × String) (m : List (Int × String)) (k : Int) :
    idMapGet (p :: m) k = if p.1 = k then some p.2 else idMapGet m k := by
  by_cases h : p.1 = k
  · simp [idMapGet, List.find?_cons_of_pos, h]
  · have hb : (p.1 == k) = false := by simp [h]
    simp [idMapGet, List.find?_cons_of_neg, hb, h]

theorem idMapGet_map_update_ne (m : List (Int × String)) (k : Int) (v : String)
    (r : Int) (h : r ≠ k) :
    idMapGet (m.map (fun p => if p.1 == k then (p.1, v) else p)) r = idMapGet m r := by
  induction m with
  | nil => rfl
  | cons q rest ih =>
    simp only [List.map_cons]
    by_cases hq : q.1 = k
    · have hqr : q.1 ≠ r := fun hh => h (hh.symm.trans hq)
      rw [show (if q.1 == k then (q.1, v) else q) = (q.1, v) from by simp [hq]]
      rw [idMapGet_cons, idMapGet_cons, if_neg hqr, if_neg hqr]
      exact ih
    · rw [show (if q.1 == k then (q.1, v) else q) = q from by simp [hq]]
      rw [idMapGet_cons, idMapGet_cons]
      by_cases h3 : q.1 = r
      · rw [if_pos h3, if_pos h3]
      · rw [if_neg h3, if_neg h3]
        exact ih

theorem idMapGet_idMapSet (m : List (Int × String)) (k : Int) (v : String) (r : Int) :
    idMapGet (idMapSet m k v) r = if r = k then some v else idMapGet m r := by
  induction m with
  | nil =>
    have hm : idMapSet [] k v = [(k, v)] := by simp [idMapSet]
    rw [hm, idMapGet_cons]
    by_cases h : r = k
    · rw [if_pos h.symm, if_pos h]
    · rw [if_neg (fun hh => h hh.symm), if_neg h]
  | cons p rest ih =>
    by_cases h1 : p.1 = k
    · have hany : ((p :: rest).any (fun q => q.1 == k)) = true := by simp [h1]
      have hm : idMapSet (p :: rest) k v
          = (p.1, v) :: rest.map (fun q => if q.1 == k then (q.1, v) else q) := by
        simp only [idMapSet, hany, if_true, List.map_cons]
        rw [show (if p.1 == k then (p.1, v) else p) = (p.1, v) from by simp [h1]]
      rw [hm, idMapGet_cons]
      by_cases h2 : r = k
      · have hpr : p.1 = r := h1.trans h2.symm
        rw [if_pos hpr, if_pos h2]
      · have hpr : p.1 ≠ r := fun hh => h2 (hh.symm.trans h1)
        rw [if_neg hpr, if_neg h2, idMapGet_cons, if_neg hpr]
        exact idMapGet_map_update_ne rest k v r h2
    · have hgp : (if p.1 == k then (p.1, v) else p) = p := by simp [h1]
      by_cases h2 : rest.any (fun q => q.1 == k) = true
      · have hany : ((p :: rest).any (fun q => q.1 == k)) = true := by
          simp [List.any_cons, h2]
        have hrest : idMapSet rest k v
            = rest.map (fun q => if q.1 == k then (q.1, v) else q) := by
          simp [idMapSet, h2]
        have hm : idMapSet (p :: rest) k v
            = p :: rest.map (fun q => if q.1 == k then (q.1, v) else q) := by
          simp only [idMapSet, hany, if_true, List.map_cons, hgp]
        rw [hm, idMapGet_cons, ← hrest, ih]
        by_cases h3 : p.1 = r
        · have hrk : r ≠ k := fun hh => h1 (h3.trans hh)
          rw [if_pos h3, if_neg hrk, idMapGet_cons, if_pos h3]
        · rw [if_neg h3]
          by_cases h4 : r = k
          · rw [if_pos h4, if_pos h4]
          · rw [if_neg h4, if_neg h4, idMapGet_cons, if_neg h3]
      · have h2f : (rest.any fun q => q.1 == k) = false := by
          cases hb : (rest.any fun q => q.1 == k) with
          | false => rfl
          | true => exact absurd hb h2
        have hanyb : ((p :: rest).any (fun q => q.1 == k)) = false := by
          simp only [List.any_cons, Bool.or_eq_false_iff]
          constructor
          · simp [h1]
          · exact h2f
        have hrest : idMapSet rest k v = rest ++ [(k, v)] := by
          simp only [idMapSet]
          rw [if_neg h2]
        have hm : idMapSet (p :: rest) k v = p :: (rest ++ [(k, v)]) := by
          simp only [idMapSet, hanyb, Bool.false_eq_true, if_false, List.cons_append]
        rw [hm, idMapGet_cons, ← hrest, ih]
        by_cases h3 : p.1 = r
        · have hrk : r ≠ k := fun hh => h1 (h3.trans hh)
          rw [if_pos h3, if_neg hrk, idMapGet_cons, if_pos h3]
        · rw [if_neg h3]
          by_cases h4 : r = k
          · rw [if_pos h4, if_pos h4]
          · rw [if_neg h4, if_neg h4, idMapGet_cons, if_neg h3]

theorem processDroplet_byID (lookup : Bool → Droplet → Except String String)
    (cfg : Config) (st : LoopState) (d : Droplet) :
    (processDroplet lookup cfg st d).byID = idMapSet st.byID d.id d.name := by
  simp only [processDroplet]
  cases lookup cfg.privateIPs d <;> split_ifs <;> rfl

theorem processDroplet_byRegion (lookup : Bool → Droplet → Except String String)
    (cfg : Config) (st : LoopState) (d : Droplet) :
    (processDroplet lookup cfg st d).byRegion
      = if cfg.groupByRegion then mapAppend st.byRegion d.regionSlug d.name
        else st.byRegion := by
  simp only [processDroplet]
  cases lookup cfg.privateIPs d <;> split_ifs <;> rfl

theorem processDroplet_byTag (lookup : Bool → Droplet → Except String String)
    (cfg : Config) (st : LoopState) (d : Droplet) :
    (processDroplet lookup cfg st d).byTag
      = if cfg.groupByTag then d.tags.foldl (fun m t => mapAppend m t d.name) st.byTag
        else st.byTag := by
  simp only [processDroplet]
  cases lookup cfg.privateIPs d <;> split_ifs <;> rfl

theorem processDroplet_inv (lookup : Bool → Droplet → Except String String)
    (cfg : Config) (st : LoopState) (d : Droplet) :
    (processDroplet lookup cfg st d).inv = st.inv ++ connContrib lookup cfg d := by
  simp only [processDroplet, connContrib]
  cases lookup cfg.privateIPs d with
  | error e => split_ifs <;> simp
  | ok ip => split_ifs <;> rfl

theorem foldl_byRegion_mono (lookup : Bool → Droplet → Except String String)
    (cfg : Config) (l : List Droplet) :
    ∀ (st : LoopState) (x r : String), x ∈ mapGet st.byRegion r →
      x ∈ mapGet (l.foldl (processDroplet lookup cfg) st).byRegion r := by
  induction l with
  | nil => exact fun st x r hx => hx
  | cons d l ih =>
    intro st x r hx
    rw [List.foldl_cons]
    apply ih
    rw [processDroplet_byRegion]
    split_ifs
    · exact mem_mapGet_mapAppend _ _ hx
    · exact hx

theorem tagsFoldl_mono (tags : List String) (v : String) :
    ∀ (m : List (String × List String)) (x r : String), x ∈ mapGet m r →
      x ∈ mapGet (tags.foldl (fun m t => mapAppend m t v) m) r := by
  induction tags with
  | nil => exact fun m x r hx => hx
  | cons t ts ih =>
    intro m x r hx
    rw [List.foldl_cons]
    exact ih _ _ _ (mem_mapGet_mapAppend _ _ hx)

theorem tagsFoldl_mem (tags : List String) (v t : String) :
    ∀ m : List (String × List String), t ∈ tags →
      v ∈ mapGet (tags.foldl (fun m t => mapAppend m t v) m) t := by
  induction tags with
  | nil => exact fun m ht => absurd ht (List.not_mem_nil t)
  | cons t0 ts ih =>
    intro m ht
    rw [List.foldl_cons]
    rcases List.mem_cons.mp ht with h | h
    · subst h
      apply tagsFoldl_mono
      rw [mapGet_mapAppend, if_pos rfl]
      exact List.mem_append_right _ (List.mem_singleton.mpr rfl)
    · exact ih _ h

theorem foldl_byTag_mono (lookup : Bool → Droplet → Except String String)
    (cfg : Config) (l : List Droplet) :
    ∀ (st : LoopState) (x r : String), x ∈ mapGet st.byTag r →
      x ∈ mapGet (l.foldl (processDroplet lookup cfg) st).byTag r := by
  induction l with
  | nil => exact fun st x r hx => hx
  | cons d l ih =>
    intro st x r hx
    rw [List.foldl_cons]
    apply ih
    rw [processDroplet_byTag]
    split_ifs
    · exact tagsFoldl_mono _ _ _ _ _ hx
    · exact hx

theorem foldl_byRegion_mem (lookup : Bool → Droplet → Except String String)
    (cfg : Config) (l : List Droplet) (d : Droplet) (hreg : cfg.groupByRegion = true) :
    ∀ st : LoopState, d ∈ l →
      d.name ∈ mapGet (l.foldl (processDroplet lookup cfg) st).byRegion d.regionSlug := by
  induction l with
  | nil => exact fun st hd => absurd hd (List.not_mem_nil d)
  | cons d0 l0 ih =>
    intro st hd
    rw [List.foldl_cons]
    rcases List.mem_cons.mp hd with h | h
    · subst h
      apply foldl_byRegion_mono
      rw [processDroplet_byRegion, if_pos hreg, mapGet_mapAppend, if_pos rfl]
      exact List.mem_append_right _ (List.mem_singleton.mpr rfl)
    · exact ih _ h

theorem foldl_byTag_mem (lookup : Bool → Droplet → Except String String)
    (cfg : Config) (l : List Droplet) (d : Droplet) (t : String)
    (htag : cfg.groupByTag = true) :
    ∀ st : LoopState, d ∈ l → t ∈ d.tags →
      d.name ∈ mapGet (l.foldl (processDroplet lookup cfg) st).byTag t := by
  induction l with
  | nil => exact fun st hd _ => absurd hd (List.not_mem_nil d)
  | cons d0 l0 ih =>
    intro st hd ht
    rw [List.foldl_cons]
    rcases List.mem_cons.mp hd with h | h
    · subst h
      apply foldl_byTag_mono
      rw [processDroplet_byTag, if_pos htag]
      exact tagsFoldl_mem _ _ _ _ ht
    · exact ih _ h ht

theorem foldl_byID_some (lookup : Bool → Droplet → Except String String)
    (cfg : Config) (l : List Droplet) (k : Int) :
    ∀ st : LoopState, (idMapGet st.byID k).isSome = true →
      (idMapGet (l.foldl (processDroplet lookup cfg) st).byID k).isSome = true := by
  induction l with
  | nil => exact fun st hx => hx
  | cons d l ih =>
    intro st hx
    rw [List.foldl_cons]
    apply ih
    rw [processDroplet_byID, idMapGet_idMapSet]
    by_cases h : k = d.id
    · rw [if_pos h]
      rfl
    · rwa [if_neg h]

theorem foldl_byID_frozen (lookup : Bool → Droplet → Except String String)
    (cfg : Config) (l : List Droplet) (k : Int) (hk : ∀ d' ∈ l, d'.id ≠ k) :
    ∀ st : LoopState,
      idMapGet (l.foldl (processDroplet lookup cfg) st).byID k = idMapGet st.byID k := by
  induction l with
  | nil => exact fun st => rfl
  | cons d l ih =>
    intro st
    rw [List.foldl_cons]
    rw [ih (fun d' hd' => hk d' (List.mem_cons_of_mem d hd'))]
    rw [processDroplet_byID, idMapGet_idMapSet]
    rw [if_neg (fun hh => hk d (List.mem_cons_self d l) hh.symm)]

theorem strAppend_empty (s : String) : s ++ "" = s := by
  cases s with
  | mk l => exact congrArg String.mk (List.append_nil l)

theorem strAppend_assoc (a b c : String) : a ++ b ++ c = a ++ (b ++ c) := by
  cases a with
  | mk la =>
    cases b with
    | mk lb =>
      cases c with
      | mk lc => exact congrArg String.mk (List.append_assoc la lb lc)

theorem connSection_append (lookup : Bool → Droplet → Except String String)
    (cfg : Config) (a b : List Droplet) :
    connSection lookup cfg (a ++ b)
      = connSection lookup cfg a ++ connSection lookup cfg b := by
  induction a with
  | nil => rfl
  | cons d l ih =>
    show connContrib lookup cfg d ++ connSection lookup cfg (l ++ b) = _
    rw [ih, ← strAppend_assoc]
    rfl

theorem foldl_inv (lookup : Bool → Droplet → Except String String)
    (cfg : Config) (l : List Droplet) :
    ∀ st : LoopState,
      (l.foldl (processDroplet lookup cfg) st).inv
        = st.inv ++ connSection lookup cfg l := by
  induction l with
  | nil => exact fun st => (strAppend_empty st.inv).symm
  | cons d l ih =>
    intro st
    rw [List.foldl_cons, ih, processDroplet_inv, strAppend_assoc]
    rfl

theorem sanitize_eq (s : String) :
    sanitizeAnsibleGroup s =
      match (replaceInvalid s).data with
      | [] => none
      | c :: _ =>
        some (if '0' ≤ c ∧ c ≤ '9' then "_" ++ replaceInvalid s else replaceInvalid s) :=
  rfl

theorem replChar_underscore : replChar '_' = '_' := by decide

theorem map_replChar_self (s : String) :
    List.map replChar (replaceInvalid s).data = (replaceInvalid s).data := by
  have h := congrArg String.data (replaceInvalid_idem s)
  rwa [replaceInvalid_data (replaceInvalid s)] at h

theorem underscore_append_data (r : String) : ("_" ++ r).data = '_' :: r.data := rfl

theorem strExt {a b : String} (h : a.data = b.data) : a = b := by
  cases a with
  | mk la =>
    cases b with
    | mk lb => exact congrArg String.mk h

theorem replaceInvalid_underscore_append (s : String) :
    replaceInvalid ("_" ++ replaceInvalid s) = "_" ++ replaceInvalid s := by
  apply strExt
  rw [replaceInvalid_data, underscore_append_data, List.map_cons, replChar_underscore,
    map_replChar_self]

theorem sanitize_eq_cons (s : String) (c : Char) (rest : List Char)
    (hd : (replaceInvalid s).data = c :: rest) :
    sanitizeAnsibleGroup s
      = some (if '0' ≤ c ∧ c ≤ '9' then "_" ++ replaceInvalid s
              else replaceInvalid s) := by
  rw [sanitize_eq, hd]

theorem sanitize_idem (s t : String) (h : sanitizeAnsibleGroup s = some t) :
    sanitizeAnsibleGroup t = some t := by
  cases hd : (replaceInvalid s).data with
  | nil =>
    rw [sanitize_eq, hd] at h
    exact Option.noConfusion h
  | cons c rest =>
    rw [sanitize_eq_cons s c rest hd] at h
    have ht := Option.some.inj h
    by_cases hc : '0' ≤ c ∧ c ≤ '9'
    · rw [if_pos hc] at ht
      rw [← ht]
      have hd2 : (replaceInvalid ("_" ++ replaceInvalid s)).data = '_' :: c :: rest := by
        rw [replaceInvalid_underscore_append, underscore_append_data, hd]
      rw [sanitize_eq_cons ("_" ++ replaceInvalid s) '_' (c :: rest) hd2]
      rw [if_neg (by decide : ¬('0' ≤ '_' ∧ '_' ≤ '9'))]
      rw [replaceInvalid_underscore_append]
    · rw [if_neg hc] at ht
      rw [← ht]
      have hd2 : (replaceInvalid (replaceInvalid s)).data = c :: rest := by
        rw [replaceInvalid_idem, hd]
      rw [sanitize_eq_cons (replaceInvalid s) c rest hd2, if_neg hc, replaceInvalid_idem]

theorem foldl_render_congr (m₁ m₂ : List (String × List String)) (l : List String)
    (h : ∀ r ∈ l, mapGet m₁ r = mapGet m₂ r) :
    ∀ acc : String,
      l.foldl (fun acc r => acc ++ "[" ++ r ++ "]\n" ++ renderMembers (mapGet m₁ r)) acc
        = l.foldl (fun acc r => acc ++ "[" ++ r ++ "]\n" ++ renderMembers (mapGet m₂ r))
            acc := by
  induction l with
  | nil => exact fun acc => rfl
  | cons r l ih =>
    intro acc
    rw [List.foldl_cons, List.foldl_cons, h r (List.mem_cons_self r l)]
    exact ih (fun r' hr' => h r' (List.mem_cons_of_mem r hr')) _

theorem renderRegions_congr (cfg : Config) (m₁ m₂ : List (String × List String))
    (h : ∀ r ∈ doRegions, mapGet m₁ r = mapGet m₂ r) :
    renderRegions cfg m₁ = renderRegions cfg m₂ := by
  unfold renderRegions
  split_ifs
  · exact foldl_render_congr m₁ m₂ doRegions h ""
  · rfl

/-! ## Claim theorems -/

/-- C1, counterexample: the claim says address resolution falls back to the
public IP when `preferPrivate` is set but the private IP is absent. On a
droplet with only a public address the code resolves to "absent" while the
claimed rule resolves to the public address, so the claim as stated is false. -/
theorem resolveAddress_fallback_counterexample :
    resolveIPOpt true publicOnlyDroplet = none
    ∧ resolveAddressSpec true publicOnlyDroplet = some "1.2.3.4"
    ∧ resolveIPOpt true publicOnlyDroplet ≠ resolveAddressSpec true publicOnlyDroplet := by
  refine ⟨rfl, rfl, ?_⟩
  intro h
  exact Option.noConfusion (h.symm.trans rfl)

/-- C1, amended: address resolution returns the private IP when `preferPrivate`
is set and the private IP is present, absent when `preferPrivate` is set and
the private IP is missing (no fallback to the public IP), else the public IP
if present, else absent — absent is not an error; a machine whose address is
absent still gets its connection line, without a host override, and is never
dropped. -/
theorem resolveAddress_amended (pp : Bool) (d : Droplet) (cfg : Config)
    (st : LoopState) :
    resolveIPOpt pp d
      = (if pp then (if d.privateIPv4 = "" then none else some d.privateIPv4)
         else (if d.publicIPv4 = "" then none else some d.publicIPv4))
    ∧ (cfg.privateIPs = pp → resolveIP pp d = "" →
        (processDroplet godoLookup cfg st d).inv = st.inv ++ connectionLine cfg d.name "")
    ∧ (cfg.sshUser = "" → cfg.sshPort = 0 →
        connectionLine cfg d.name "" = d.name ++ "\t\n") := by
  refine ⟨?_, ?_, ?_⟩
  · cases pp <;> simp [resolveIPOpt, resolveIP]
  · intro hpp habsent
    rw [processDroplet_inv]
    simp [connContrib, godoLookup, hpp, habsent]
  · intro hu hp0
    apply strExt
    simp [connectionLine, hu, hp0, strData_append]

/-- C1 witness: the amended theorem's resolution rule at a droplet with a
public address only, both without `--private-ips` (the public address is
returned) and with it (absent, no fallback), and the absent-address emission
conjuncts discharged under `--private-ips`. -/
theorem resolveAddress_amended_witness :
    resolveIPOpt false web1Droplet
        = (if false then (if web1Droplet.privateIPv4 = "" then none
                          else some web1Droplet.privateIPv4)
           else (if web1Droplet.publicIPv4 = "" then none
                 else some web1Droplet.publicIPv4))
    ∧ resolveIPOpt true publicOnlyDroplet
        = (if true then (if publicOnlyDroplet.privateIPv4 = "" then none
                         else some publicOnlyDroplet.privateIPv4)
           else (if publicOnlyDroplet.publicIPv4 = "" then none
                 else some publicOnlyDroplet.publicIPv4))
    ∧ (processDroplet godoLookup (Config.mk "" 0 [] true true true true)
          (LoopState.mk [] [] [] "") publicOnlyDroplet).inv
        = (LoopState.mk [] [] [] "").inv
          ++ connectionLine (Config.mk "" 0 [] true true true true)
              publicOnlyDroplet.name ""
    ∧ connectionLine (Config.mk "" 0 [] true true true true) publicOnlyDroplet.name ""
        = publicOnlyDroplet.name ++ "\t\n" :=
  ⟨(resolveAddress_amended false web1Droplet defaultConfig
      (LoopState.mk [] [] [] "")).1,
   (resolveAddress_amended true publicOnlyDroplet (Config.mk "" 0 [] true true true true)
      (LoopState.mk [] [] [] "")).1,
   (resolveAddress_amended true publicOnlyDroplet (Config.mk "" 0 [] true true true true)
      (LoopState.mk [] [] [] "")).2.1 rfl (by decide),
   (resolveAddress_amended true publicOnlyDroplet (Config.mk "" 0 [] true true true true)
      (LoopState.mk [] [] [] "")).2.2 rfl rfl⟩

/-- C2, counterexample: a machine in the unrecognized region `xyz9` is added to
the region map under a new key, but the rendered region section is identical to
the one of a run with no machines at all — the machine is silently dropped from
the rendered region groups, with no warning path in the code. -/
theorem strayRegion_dropped_counterexample :
    mapGet (runLoop godoLookup defaultConfig [strayRegionDroplet]).byRegion "xyz9"
        = ["webx"]
    ∧ renderRegions defaultConfig
          (runLoop godoLookup defaultConfig [strayRegionDroplet]).byRegion
        = renderRegions defaultConfig (initState defaultConfig).byRegion := by
  exact ⟨by decide, by decide⟩

/-- C2, amended: a machine with an unrecognized region slug is retained in the
in-memory region map (appended under a newly created key), but the region
rendering reads only the canonical `doRegions` keys, so such a machine appears
in no rendered region group and no warning is emitted. -/
theorem strayRegion_amended (lookup : Bool → Droplet → Except String String)
    (cfg : Config) (droplets : List Droplet) (d : Droplet)
    (hreg : cfg.groupByRegion = true) (hmem : d ∈ droplets) :
    d.name ∈ mapGet (runLoop lookup cfg droplets).byRegion d.regionSlug
    ∧ (∀ m₁ m₂ : List (String × List String),
        (∀ r ∈ doRegions, mapGet m₁ r = mapGet m₂ r) →
        renderRegions cfg m₁ = renderRegions cfg m₂) :=
  ⟨foldl_byRegion_mem lookup cfg droplets d hreg _ hmem,
   fun m₁ m₂ h => renderRegions_congr cfg m₁ m₂ h⟩

/-- C2 witness: the amended theorem at the stray-region droplet, with the
render-congruence part instantiated at a map carrying only a non-canonical
key. -/
theorem strayRegion_amended_witness :
    strayRegionDroplet.name
        ∈ mapGet (runLoop godoLookup defaultConfig [strayRegionDroplet]).byRegion
            strayRegionDroplet.regionSlug
    ∧ renderRegions defaultConfig [] = renderRegions defaultConfig [("zzz9", ["q"])] :=
  ⟨(strayRegion_amended godoLookup defaultConfig [strayRegionDroplet]
      strayRegionDroplet rfl (List.mem_singleton.mpr rfl)).1,
   (strayRegion_amended godoLookup defaultConfig [strayRegionDroplet]
      strayRegionDroplet rfl (List.mem_singleton.mpr rfl)).2 [] [("zzz9", ["q"])]
      (by decide)⟩

/-- C3: when the per-page handler returns an error, `paginateGodo` discards the
error: it stops paginating and returns Go's `nil` (here `none` in the result's
second component), reporting success (src/main.go:390-393). -/
theorem paginate_handler_error_swallowed {α σ : Type}
    (call : Nat → Except String (α × PageResp)) (handler : α → σ → σ × Option String)
    (fuel page : Nat) (s s' : σ) (a : α) (resp : PageResp) (e : String)
    (hcall : call page = .ok (a, resp)) (hhandle : handler a s = (s', some e)) :
    paginateGodo call handler (fuel + 1) page s = some (s', none) := by
  simp [paginateGodo, hcall, hhandle]

/-- C3 witness: the theorem at a one-page call whose handler always fails. -/
theorem paginate_handler_error_swallowed_witness :
    paginateGodo (fun _ => (.ok ((), ⟨none⟩) : Except String (Unit × PageResp)))
      (fun (_ : Unit) (_ : Unit) => ((), some "boom")) 1 0 () = some ((), none) :=
  paginate_handler_error_swallowed (fun _ => .ok ((), ⟨none⟩))
    (fun _ _ => ((), some "boom")) 0 0 () () () ⟨none⟩ "boom" rfl rfl

/-- C4: an error from a page fetch makes `paginateGodo` return that error at
once, with the state as it was before the failed call and no further calls
(src/main.go:385-388); and `listDroplets` turns any pagination error into
`error`, returning no partial droplet list (src/main.go:349-352). -/
theorem paginate_fetch_error_propagates {α σ : Type}
    (call : Nat → Except String (α × PageResp)) (handler : α → σ → σ × Option String)
    (fuel page : Nat) (s : σ) (e : String)
    (callD : Nat → Except String (GodoResults × PageResp)) (fuelD : Nat)
    (hcall : call page = .error e) :
    paginateGodo call handler (fuel + 1) page s = some (s, some e)
    ∧ (∀ (sD : List Droplet) (e' : String),
        paginateGodo callD dropletsHandler fuelD 0 [] = some (sD, some e') →
        listDroplets callD fuelD = some (.error e')) := by
  constructor
  · simp [paginateGodo, hcall]
  · intro sD e' h
    unfold listDroplets
    rw [h]

/-- C4 witness: the theorem at a call that fails on the first page. -/
theorem paginate_fetch_error_propagates_witness :
    paginateGodo (fun _ => (.error "down" : Except String (Unit × PageResp)))
      (fun (_ : Unit) (s : Unit) => (s, none)) 1 0 () = some ((), some "down")
    ∧ (∀ (sD : List Droplet) (e' : String),
        paginateGodo (fun _ => (.error "down" : Except String (GodoResults × PageResp)))
          dropletsHandler 1 0 [] = some (sD, some e') →
        listDroplets (fun _ => .error "down") 1 = some (.error e')) :=
  paginate_fetch_error_propagates (fun _ => .error "down")
    (fun _ s => (s, none)) 0 0 () "down" (fun _ => .error "down") 1 rfl

/-- C5: `removeIgnored` keeps exactly the machines whose name is not in the
ignore list (exact, case-sensitive string match), in the original relative
order (it is the filter of the input, hence a sublist), and with an empty
ignore list it returns the input unchanged. -/
theorem removeIgnored_spec (L : List Droplet) (I : List String) :
    removeIgnored L I = L.filter (fun d => !(I.contains d.name))
    ∧ (∀ d : Droplet, d ∈ removeIgnored L I ↔ d ∈ L ∧ d.name ∉ I)
    ∧ (removeIgnored L I).Sublist L
    ∧ removeIgnored L [] = L := by
  refine ⟨removeIgnored_eq_filter L I, ?_, ?_, ?_⟩
  · intro d
    rw [removeIgnored_eq_filter]
    simp [List.mem_filter]
  · rw [removeIgnored_eq_filter]
    exact List.filter_sublist L
  · rw [removeIgnored_eq_filter]
    simp

/-- C6: sanitization replaces each space, hyphen and colon with an underscore,
then — whenever there is a first character — prepends an underscore exactly
when that first character is a digit; in particular `"dev-team:a"` sanitizes to
`"dev_team_a"` and `"2020-Infra"` to `"_2020_Infra"`. -/
theorem sanitizeAnsibleGroup_rule (s : String) :
    (replaceInvalid s).data
        = s.data.map (fun c => if c = ' ' ∨ c = '-' ∨ c = ':' then '_' else c)
    ∧ (∀ (c : Char) (rest : List Char), (replaceInvalid s).data = c :: rest →
        sanitizeAnsibleGroup s
          = some (if '0' ≤ c ∧ c ≤ '9' then "_" ++ replaceInvalid s
                  else replaceInvalid s))
    ∧ sanitizeAnsibleGroup "dev-team:a" = some "dev_team_a"
    ∧ sanitizeAnsibleGroup "2020-Infra" = some "_2020_Infra" := by
  refine ⟨?_, ?_, by decide, by decide⟩
  · rw [replaceInvalid_data]
    apply List.map_congr_left
    intro c _
    unfold replChar
    by_cases h : c = ' ' ∨ c = '-' ∨ c = ':'
    · rw [if_pos h]
      rcases h with h | h | h <;> simp [h]
    · rw [if_neg h]
      push_neg at h
      simp [h.1, h.2.1, h.2.2]
  · intro c rest hd
    exact sanitize_eq_cons s c rest hd

/-- C6 witness: the conditional conjunct discharged on `"dev-team:a"`. -/
theorem sanitizeAnsibleGroup_rule_witness :
    sanitizeAnsibleGroup "dev-team:a"
      = some (if '0' ≤ 'd' ∧ 'd' ≤ '9' then "_" ++ replaceInvalid "dev-team:a"
              else replaceInvalid "dev-team:a") :=
  (sanitizeAnsibleGroup_rule "dev-team:a").2.1 'd' "ev_team_a".data (by decide)

/-- C7: sanitization is idempotent — whenever it succeeds, sanitizing the
result returns that same string — and on any input whose first character is a
digit it succeeds with a result beginning with an underscore. -/
theorem sanitize_idempotent_digit :
    (∀ s t : String, sanitizeAnsibleGroup s = some t → sanitizeAnsibleGroup t = some t)
    ∧ (∀ (s : String) (c : Char) (rest : List Char),
        s.data = c :: rest → ('0' ≤ c ∧ c ≤ '9') →
        ∃ t, sanitizeAnsibleGroup s = some t ∧ t.data.head? = some '_') := by
  constructor
  · exact sanitize_idem
  · intro s c rest hs hc
    have h1 : c ≠ ' ' := fun h => absurd (h ▸ hc.1) (by decide)
    have h2 : c ≠ '-' := fun h => absurd (h ▸ hc.1) (by decide)
    have h3 : c ≠ ':' := fun h => absurd (h ▸ hc.2) (by decide)
    have hrc : replChar c = c := by
      unfold replChar
      rw [if_neg]
      simp [h1, h2, h3]
    have hd2 : (replaceInvalid s).data = c :: rest.map replChar := by
      rw [replaceInvalid_data, hs, List.map_cons, hrc]
    refine ⟨"_" ++ replaceInvalid s, ?_, ?_⟩
    · rw [sanitize_eq_cons s c (rest.map replChar) hd2, if_pos hc]
    · rw [underscore_append_data]
      rfl

/-- C7 witness: idempotence at `"a-b"` and the digit rule at `"2x"`. -/
theorem sanitize_idempotent_digit_witness :
    sanitizeAnsibleGroup "a_b" = some "a_b"
    ∧ ∃ t, sanitizeAnsibleGroup "2x" = some t ∧ t.data.head? = some '_' :=
  ⟨sanitize_idempotent_digit.1 "a-b" "a_b" (by decide),
   sanitize_idempotent_digit.2 "2x" '2' "x".data (by decide) (by decide)⟩

/-- C8, counterexample: on the single-machine scenario the output does begin
with the connection line and a blank line, but the group that follows is
`[ams1]` — the first canonical region — not `[nyc1]` as the claim states: the
code renders all canonical regions in their fixed order, with `nyc1` seventh. -/
theorem renderScenario_counterexample :
    mainInventory defaultConfig [web1Droplet] []
        = some ("web1\tansible_host=1.2.3.4\n\n[ams1]\n\n[ams2]\n\n[ams3]\n\n[blr1]\n\n[fra1]\n\n[lon1]\n\n[nyc1]\nweb1\n\n[nyc2]\n\n[nyc3]\n\n[sfo1]\n\n[sfo2]\n\n[sfo3]\n\n[sgp1]\n\n[tor1]\n\n[prod]\nweb1\n\n")
    ∧ ((mainInventory defaultConfig [web1Droplet] []).getD "").data.take 33
        ≠ ("web1\tansible_host=1.2.3.4\n\n[nyc1]\nweb1\n").data.take 33 := by
  exact ⟨by decide, by decide⟩

/-- C8, amended: on the single-machine scenario the output is the connection
line `web1<TAB>ansible_host=1.2.3.4<NL>`, a blank line, then every canonical
region in the fixed canonical order — each as a header, all empty except
`[nyc1]`, which contains web1 — then the tag group `[prod]`. -/
theorem renderScenario_amended :
    mainInventory defaultConfig [web1Droplet] []
        = some ("web1\tansible_host=1.2.3.4\n\n"
            ++ "[ams1]\n\n[ams2]\n\n[ams3]\n\n[blr1]\n\n[fra1]\n\n[lon1]\n\n"
            ++ "[nyc1]\nweb1\n\n"
            ++ "[nyc2]\n\n[nyc3]\n\n[sfo1]\n\n[sfo2]\n\n[sfo3]\n\n[sgp1]\n\n[tor1]\n\n"
            ++ "[prod]\nweb1\n\n") := by
  decide

/-- C9: the sanitizer is total on every non-empty string, and on the empty
string the unconditional `s[0]` read is out of range — the Go program panics,
modelled as `none` — so sanitization is safe only under the precondition that
group names are non-empty. -/
theorem sanitize_safe_only_nonempty (s : String) (hne : s ≠ "") :
    (sanitizeAnsibleGroup s).isSome = true ∧ sanitizeAnsibleGroup "" = none := by
  constructor
  · have hd : s.data ≠ [] := str_ne_empty_iff_data.mp hne
    cases hs : s.data with
    | nil => exact absurd hs hd
    | cons c rest =>
      have hd2 : (replaceInvalid s).data = replChar c :: rest.map replChar := by
        rw [replaceInvalid_data, hs, List.map_cons]
      rw [sanitize_eq_cons s (replChar c) (rest.map replChar) hd2]
      rfl
  · rfl

/-- C9 witness: the theorem at the one-character string `"a"`. -/
theorem sanitize_safe_only_nonempty_witness :
    (sanitizeAnsibleGroup "a").isSome = true ∧ sanitizeAnsibleGroup "" = none :=
  sanitize_safe_only_nonempty "a" (by decide)

/-- C10: when the address lookup for a machine errors, the per-droplet loop
still records the machine in its region group, in every one of its tag groups,
and in the ID-to-name map (so it stays eligible for project groups), while the
connection-lines section is exactly the contributions of the other machines —
the grouping insertions all happen before address resolution. -/
theorem lookupError_groups_only (lookup : Bool → Droplet → Except String String)
    (cfg : Config) (pre post : List Droplet) (d : Droplet) (e : String)
    (herr : lookup cfg.privateIPs d = .error e)
    (hreg : cfg.groupByRegion = true) (htag : cfg.groupByTag = true) :
    d.name ∈ mapGet (runLoop lookup cfg (pre ++ d :: post)).byRegion d.regionSlug
    ∧ (∀ t ∈ d.tags, d.name ∈ mapGet (runLoop lookup cfg (pre ++ d :: post)).byTag t)
    ∧ (idMapGet (runLoop lookup cfg (pre ++ d :: post)).byID d.id).isSome = true
    ∧ ((∀ d' ∈ post, d'.id ≠ d.id) →
        idMapGet (runLoop lookup cfg (pre ++ d :: post)).byID d.id = some d.name)
    ∧ (runLoop lookup cfg (pre ++ d :: post)).inv
        = connSection lookup cfg pre ++ connSection lookup cfg post := by
  have hmem : d ∈ pre ++ d :: post :=
    List.mem_append.mpr (Or.inr (List.mem_cons_self d post))
  have hsplit : (pre ++ d :: post).foldl (processDroplet lookup cfg) (initState cfg)
      = post.foldl (processDroplet lookup cfg)
          (processDroplet lookup cfg (pre.foldl (processDroplet lookup cfg) (initState cfg)) d) := by
    rw [List.foldl_append, List.foldl_cons]
  have hmid : idMapGet (processDroplet lookup cfg
      (pre.foldl (processDroplet lookup cfg) (initState cfg)) d).byID d.id
      = some d.name := by
    rw [processDroplet_byID, idMapGet_idMapSet, if_pos rfl]
  refine ⟨?_, ?_, ?_, ?_, ?_⟩
  · exact foldl_byRegion_mem lookup cfg (pre ++ d :: post) d hreg _ hmem
  · exact fun t ht => foldl_byTag_mem lookup cfg (pre ++ d :: post) d t htag _ hmem ht
  · rw [runLoop, hsplit]
    apply foldl_byID_some
    rw [hmid]
    rfl
  · intro hk
    rw [runLoop, hsplit, foldl_byID_frozen lookup cfg post d.id hk, hmid]
  · rw [runLoop, foldl_inv, connSection_append]
    show "" ++ (connSection lookup cfg pre
        ++ (connContrib lookup cfg d ++ connSection lookup cfg post)) = _
    rw [show connContrib lookup cfg d = "" from by simp [connContrib, herr]]
    rw [show ("" : String) ++ connSection lookup cfg post = connSection lookup cfg post
      from rfl]
    rfl

/-- C10 witness: the theorem at a run whose lookup always errors, on the
single machine `web1`. -/
theorem lookupError_groups_only_witness :
    web1Droplet.name ∈ mapGet (runLoop (fun _ _ => .error "nope") defaultConfig
        ([] ++ web1Droplet :: [])).byRegion web1Droplet.regionSlug
    ∧ web1Droplet.name ∈ mapGet (runLoop (fun _ _ => .error "nope") defaultConfig
        ([] ++ web1Droplet :: [])).byTag "prod"
    ∧ (idMapGet (runLoop (fun _ _ => .error "nope") defaultConfig
        ([] ++ web1Droplet :: [])).byID web1Droplet.id).isSome = true
    ∧ idMapGet (runLoop (fun _ _ => .error "nope") defaultConfig
        ([] ++ web1Droplet :: [])).byID web1Droplet.id = some web1Droplet.name
    ∧ (runLoop (fun _ _ => .error "nope") defaultConfig
        ([] ++ web1Droplet :: [])).inv
        = connSection (fun _ _ => .error "nope") defaultConfig []
          ++ connSection (fun _ _ => .error "nope") defaultConfig [] := by
  have h := lookupError_groups_only (fun _ _ => .error "nope") defaultConfig [] []
    web1Droplet "nope" rfl rfl rfl
  exact ⟨h.1, h.2.1 "prod" (by decide), h.2.2.1,
    h.2.2.2.1 (fun d' hd' => absurd hd' (List.not_mem_nil d')), h.2.2.2.2⟩

end DoAnsibleInventory
